import Mathlib

/-!
# RF telemetry packet (`rf_protocol/rf_packet.h`)

A shallow embedding of the packet interface declared in `rf_packet.h`:
the endianness tag `START_BYTE`, the mask table `update_bit_pos`, the packed
record `struct rf_data_s` with its byte layout, and the declared operations.

The header carries declarations only.  The constants, the enum and the record
are embedded from the header; operation bodies that the header does not
contain are given as documented models.
-/

namespace RfPacket

/-! ## Endianness tag -/

/-- The three compiler-provided macros the `#if` chain of the header compares:
`__BYTE_ORDER__`, `__ORDER_BIG_ENDIAN__` and `__ORDER_LITTLE_ENDIAN__`. -/
structure Host where
  byte_order : Nat
  order_big_endian : Nat
  order_little_endian : Nat
  deriving DecidableEq, Repr

/-- `START_BYTE` as selected by the `#if / #elif / #else` chain. -/
def START_BYTE (h : Host) : Nat :=
  if h.byte_order = h.order_big_endian then 0x3E
  else if h.byte_order = h.order_little_endian then 0x3C
  else 0x3F

/-! ## Mask table -/

/-- The enum `update_bit_pos`. -/
inductive update_bit_pos
  | ALT | LAT | LONG | ALTGPS | A200G | A16G | MAG16G | PITCH
  | ROLL | UPTIME | TIMEACCEL | TEMP1 | TEMP2 | CHARGES | CONTINUITY
  deriving DecidableEq, Repr

open update_bit_pos

/-- The enumerators in the order in which the enum declares them. -/
def update_bit_pos.enumerators : List update_bit_pos :=
  [ALT, LAT, LONG, ALTGPS, A200G, A16G, MAG16G, PITCH,
   ROLL, UPTIME, TIMEACCEL, TEMP1, TEMP2, CHARGES, CONTINUITY]

/-- The integer value of an enumerator: no enumerator has an initialiser, so
the first one is 0 and each following one is its predecessor plus one. -/
def update_bit_pos.val (g : update_bit_pos) : Nat :=
  update_bit_pos.enumerators.indexOf g

/-! ## The record `struct rf_data_s` -/

/-- Width in bits of the bit-field `update_mask`. -/
def update_mask_bits : Nat := 14

/-- Width in bits of each of the bit-fields `charges` and `continuity`. -/
def channel_bits : Nat := 4

/-- The members of `struct rf_data_s`, in declaration order. -/
inductive rf_member
  | start_byte | update_mask | alt | lat | lon | alt_gps
  | x200g | y200g | z200g | x16g | y16g | z16g
  | x16mag | y16mag | z16mag | pitch | roll
  | uptime | time_since_accel | temp1 | temp2
  | charges | continuity
  deriving DecidableEq, Repr

/-- The declared type of a member: an object of a whole number of bytes, or a
bit-field of a given width. -/
inductive member_type
  | bytes (n : Nat)
  | bitfield (width : Nat)
  deriving DecidableEq, Repr

/-- The member list of `struct rf_data_s` with the declared types
(`uint8_t` is 1 byte, `float` and `uint32_t` are 4 bytes). -/
def rf_data_s_members : List (rf_member × member_type) :=
  [ (.start_byte, .bytes 1),
    (.update_mask, .bitfield update_mask_bits),
    (.alt, .bytes 4), (.lat, .bytes 4), (.lon, .bytes 4), (.alt_gps, .bytes 4),
    (.x200g, .bytes 4), (.y200g, .bytes 4), (.z200g, .bytes 4),
    (.x16g, .bytes 4), (.y16g, .bytes 4), (.z16g, .bytes 4),
    (.x16mag, .bytes 4), (.y16mag, .bytes 4), (.z16mag, .bytes 4),
    (.pitch, .bytes 4), (.roll, .bytes 4),
    (.uptime, .bytes 4), (.time_since_accel, .bytes 4),
    (.temp1, .bytes 4), (.temp2, .bytes 4),
    (.charges, .bitfield channel_bits),
    (.continuity, .bitfield channel_bits) ]

/-- The byte ranges written in the comments beside the members
(`//0`, `//1-2`, ..., `(bytes 78-81)` for the two channel bit-fields). -/
def annotated_range : rf_member → Nat × Nat
  | .start_byte => (0, 0)
  | .update_mask => (1, 2)
  | .alt => (3, 6)
  | .lat => (7, 10)
  | .lon => (11, 14)
  | .alt_gps => (15, 18)
  | .x200g => (19, 22)
  | .y200g => (23, 26)
  | .z200g => (27, 30)
  | .x16g => (31, 34)
  | .y16g => (35, 38)
  | .z16g => (39, 42)
  | .x16mag => (43, 46)
  | .y16mag => (47, 50)
  | .z16mag => (50, 53)
  | .pitch => (54, 57)
  | .roll => (58, 61)
  | .uptime => (62, 65)
  | .time_since_accel => (66, 69)
  | .temp1 => (70, 73)
  | .temp2 => (74, 77)
  | .charges => (78, 81)
  | .continuity => (78, 81)

/-- Layout under `#pragma pack(1)`: members are placed in declaration order
starting at bit `cursor`.  A bit-field starts at the cursor; any other member
starts at the next byte boundary.  Each member is returned with its first bit
and its width in bits. -/
def layout_from : Nat → List (rf_member × member_type) → List (rf_member × Nat × Nat)
  | _, [] => []
  | cursor, (m, .bitfield w) :: rest => (m, cursor, w) :: layout_from (cursor + w) rest
  | cursor, (m, .bytes n) :: rest =>
      let start := 8 * ((cursor + 7) / 8)
      (m, start, 8 * n) :: layout_from (start + 8 * n) rest

/-- The bit cursor after the last member. -/
def layout_end : Nat → List (rf_member × member_type) → Nat
  | cursor, [] => cursor
  | cursor, (_, .bitfield w) :: rest => layout_end (cursor + w) rest
  | cursor, (_, .bytes n) :: rest => layout_end (8 * ((cursor + 7) / 8) + 8 * n) rest

/-- The placement of every member of `struct rf_data_s`. -/
def rf_data_s_layout : List (rf_member × Nat × Nat) :=
  layout_from 0 rf_data_s_members

/-- The bytes a member touches: first and last byte index. -/
def byte_range (m : rf_member) : Option (Nat × Nat) :=
  (rf_data_s_layout.lookup m).map fun p => (p.1 / 8, (p.1 + p.2 - 1) / 8)

/-- The value of `sizeof(struct rf_data_s)`: the bytes up to the end of the last member. -/
def sizeof_rf_data_s : Nat :=
  (layout_end 0 rf_data_s_members + 7) / 8

/-- Length of the member `serialized` of `union rf_data_u`, declared as
`uint8_t serialized[sizeof(struct rf_data_s)]`. -/
def serialized_length : Nat := sizeof_rf_data_s

/-- The value of `sizeof(union rf_data_u)`: the larger of its two members. -/
def sizeof_rf_data_u : Nat := max sizeof_rf_data_s serialized_length

/-- The byte ranges of consecutive members, as pairs (previous, next). -/
def consecutive_ranges : List ((rf_member × Nat × Nat) × (rf_member × Nat × Nat)) :=
  rf_data_s_layout.zip rf_data_s_layout.tail

/-- The mask-table entry a member belongs to, after the comment under the record:
each member has a bit in `update_mask`, and the members of an xyz triple have
only one bit together.  The tag and the mask itself have none. -/
def rf_member.group : rf_member → Option update_bit_pos
  | .start_byte | .update_mask => none
  | .alt => some ALT
  | .lat => some LAT
  | .lon => some LONG
  | .alt_gps => some ALTGPS
  | .x200g | .y200g | .z200g => some A200G
  | .x16g | .y16g | .z16g => some A16G
  | .x16mag | .y16mag | .z16mag => some MAG16G
  | .pitch => some PITCH
  | .roll => some ROLL
  | .uptime => some UPTIME
  | .time_since_accel => some TIMEACCEL
  | .temp1 => some TEMP1
  | .temp2 => some TEMP2
  | .charges => some CHARGES
  | .continuity => some CONTINUITY

/-! ## The frame and its operations -/

/-- The record `struct rf_data_s`.  A `float` member holds the 32-bit pattern of
its value, `uptime` and `time_since_accel` hold a `uint32_t`, `update_mask` holds
the 14-bit field and `charges`, `continuity` the two 4-bit fields. -/
structure rf_data_s where
  start_byte : Nat
  update_mask : Nat
  alt : Nat
  lat : Nat
  lon : Nat
  alt_gps : Nat
  x200g : Nat
  y200g : Nat
  z200g : Nat
  x16g : Nat
  y16g : Nat
  z16g : Nat
  x16mag : Nat
  y16mag : Nat
  z16mag : Nat
  pitch : Nat
  roll : Nat
  uptime : Nat
  time_since_accel : Nat
  temp1 : Nat
  temp2 : Nat
  charges : Nat
  continuity : Nat
  deriving DecidableEq, Repr

/-- Every member holds a value of its declared width. -/
def rf_data_s.wf (f : rf_data_s) : Prop :=
  f.update_mask < 2 ^ update_mask_bits ∧
  f.alt < 2 ^ 32 ∧ f.lat < 2 ^ 32 ∧ f.lon < 2 ^ 32 ∧ f.alt_gps < 2 ^ 32 ∧
  f.x200g < 2 ^ 32 ∧ f.y200g < 2 ^ 32 ∧ f.z200g < 2 ^ 32 ∧
  f.x16g < 2 ^ 32 ∧ f.y16g < 2 ^ 32 ∧ f.z16g < 2 ^ 32 ∧
  f.x16mag < 2 ^ 32 ∧ f.y16mag < 2 ^ 32 ∧ f.z16mag < 2 ^ 32 ∧
  f.pitch < 2 ^ 32 ∧ f.roll < 2 ^ 32 ∧
  f.uptime < 2 ^ 32 ∧ f.time_since_accel < 2 ^ 32 ∧
  f.temp1 < 2 ^ 32 ∧ f.temp2 < 2 ^ 32 ∧
  f.charges < 2 ^ channel_bits ∧ f.continuity < 2 ^ channel_bits

/-- The value of the single bit of group `g` once it is stored in the 14-bit
field `update_mask`: `1 << g` truncated to the width of the field. -/
def mask_bit (g : update_bit_pos) : Nat :=
  (1 <<< g.val) % 2 ^ update_mask_bits

/-- Modelled from the spec: the mask bit of each field group as the data-model
table of the spec gives it (the operations that use it are in `rf_packet.c`,
which is not part of the header): 0 for altitude up to 12 for temperature 2,
and 13 for the charge group and for the continuity group, which share it. -/
def spec_mask_bit : update_bit_pos → Nat
  | ALT => 0
  | LAT => 1
  | LONG => 2
  | ALTGPS => 3
  | A200G => 4
  | A16G => 5
  | MAG16G => 6
  | PITCH => 7
  | ROLL => 8
  | UPTIME => 9
  | TIMEACCEL => 10
  | TEMP1 => 11
  | TEMP2 => 12
  | CHARGES => 13
  | CONTINUITY => 13

/-- Modelled from the spec: the statement `update_mask |= 1 << g` with the
position `g` of the mask table, as the setters and the `set_*_change` functions
perform it (the bodies are in `rf_packet.c`, which is not part of the header).
The result is truncated to the width of the bit-field. -/
def mark_changed (f : rf_data_s) (g : update_bit_pos) : rf_data_s :=
  { f with update_mask := (f.update_mask ||| (1 <<< g.val)) % 2 ^ update_mask_bits }

/-- Modelled from the spec: `create_packet` (body in `rf_packet.c`): all members
zero, the mask cleared, the tag set to `START_BYTE`. -/
def create_packet (h : Host) : rf_data_s :=
  { start_byte := START_BYTE h, update_mask := 0,
    alt := 0, lat := 0, lon := 0, alt_gps := 0,
    x200g := 0, y200g := 0, z200g := 0, x16g := 0, y16g := 0, z16g := 0,
    x16mag := 0, y16mag := 0, z16mag := 0, pitch := 0, roll := 0,
    uptime := 0, time_since_accel := 0, temp1 := 0, temp2 := 0,
    charges := 0, continuity := 0 }

/-- Modelled from the spec: `add_alt` (body in `rf_packet.c`): store, then mark. -/
def add_alt (f : rf_data_s) (v : Nat) : rf_data_s :=
  mark_changed { f with alt := v % 2 ^ 32 } ALT

/-- Modelled from the spec: `add_lat` (body in `rf_packet.c`): store, then mark. -/
def add_lat (f : rf_data_s) (v : Nat) : rf_data_s :=
  mark_changed { f with lat := v % 2 ^ 32 } LAT

/-- Modelled from the spec: `add_long` (body in `rf_packet.c`): store, then mark. -/
def add_long (f : rf_data_s) (v : Nat) : rf_data_s :=
  mark_changed { f with lon := v % 2 ^ 32 } LONG

/-- Modelled from the spec: `add_alt_gps` (body in `rf_packet.c`): store, then mark. -/
def add_alt_gps (f : rf_data_s) (v : Nat) : rf_data_s :=
  mark_changed { f with alt_gps := v % 2 ^ 32 } ALTGPS

/-- Modelled from the spec: `add_200g_accel` (body in `rf_packet.c`): store the
three axes, then mark the one bit of the group. -/
def add_200g_accel (f : rf_data_s) (x y z : Nat) : rf_data_s :=
  mark_changed { f with x200g := x % 2 ^ 32, y200g := y % 2 ^ 32, z200g := z % 2 ^ 32 } A200G

/-- Modelled from the spec: `add_16g_accel` (body in `rf_packet.c`): store the
three axes, then mark the one bit of the group. -/
def add_16g_accel (f : rf_data_s) (x y z : Nat) : rf_data_s :=
  mark_changed { f with x16g := x % 2 ^ 32, y16g := y % 2 ^ 32, z16g := z % 2 ^ 32 } A16G

/-- Modelled from the spec: `add_16g_mag` (body in `rf_packet.c`): store the
three axes, then mark the one bit of the group. -/
def add_16g_mag (f : rf_data_s) (x y z : Nat) : rf_data_s :=
  mark_changed { f with x16mag := x % 2 ^ 32, y16mag := y % 2 ^ 32, z16mag := z % 2 ^ 32 } MAG16G

/-- Modelled from the spec: `add_pitch` (body in `rf_packet.c`): store, then mark. -/
def add_pitch (f : rf_data_s) (v : Nat) : rf_data_s :=
  mark_changed { f with pitch := v % 2 ^ 32 } PITCH

/-- Modelled from the spec: `add_roll` (body in `rf_packet.c`): store, then mark. -/
def add_roll (f : rf_data_s) (v : Nat) : rf_data_s :=
  mark_changed { f with roll := v % 2 ^ 32 } ROLL

/-- Modelled from the spec: `add_uptime` (body in `rf_packet.c`): store the
`uint32_t` argument, then mark. -/
def add_uptime (f : rf_data_s) (seconds : Nat) : rf_data_s :=
  mark_changed { f with uptime := seconds % 2 ^ 32 } UPTIME

/-- Modelled from the spec: `add_time_since_accel` (body in `rf_packet.c`): store
the `uint32_t` argument, then mark. -/
def add_time_since_accel (f : rf_data_s) (seconds : Nat) : rf_data_s :=
  mark_changed { f with time_since_accel := seconds % 2 ^ 32 } TIMEACCEL

/-- Modelled from the spec: `add_temp1` (body in `rf_packet.c`): store, then mark. -/
def add_temp1 (f : rf_data_s) (v : Nat) : rf_data_s :=
  mark_changed { f with temp1 := v % 2 ^ 32 } TEMP1

/-- Modelled from the spec: `add_temp2` (body in `rf_packet.c`): store, then mark. -/
def add_temp2 (f : rf_data_s) (v : Nat) : rf_data_s :=
  mark_changed { f with temp2 := v % 2 ^ 32 } TEMP2

/-- Writing one channel bit of a packed 4-bit group, leaving the other three. -/
def write_channel (bits : Nat) (channel : Nat) (value : Bool) : Nat :=
  (if value then bits ||| (1 <<< channel)
   else bits &&& ((2 ^ channel_bits - 1) ^^^ (1 <<< channel))) % 2 ^ channel_bits

/-- Modelled from the spec: `set_charge` (body in `rf_packet.c`): for a channel
index 0..3 write that channel of `charges` and mark the group; any other index
is rejected and leaves the frame as it is. -/
def set_charge (f : rf_data_s) (charge : Int) (active : Bool) : rf_data_s :=
  if 0 ≤ charge ∧ charge < 4 then
    mark_changed { f with charges := write_channel f.charges charge.toNat active } CHARGES
  else f

/-- Modelled from the spec: `set_continuity` (body in `rf_packet.c`): for a
channel index 0..3 write that channel of `continuity` and set the mask bit of
the group, which the spec gives as bit 13, shared with the charge group; any
other index is rejected and leaves the frame as it is. -/
def set_continuity (f : rf_data_s) (charge : Int) (has_continuity : Bool) : rf_data_s :=
  if 0 ≤ charge ∧ charge < 4 then
    { f with continuity := write_channel f.continuity charge.toNat has_continuity,
             update_mask := (f.update_mask ||| (1 <<< spec_mask_bit CONTINUITY))
               % 2 ^ update_mask_bits }
  else f

/-- The conversion of a `uint32_t` value to the 32-bit `int` that the getters
`get_uptime` and `get_time_since_accel` are declared to return. -/
def int_of_uint32 (v : Nat) : Int :=
  if v % 2 ^ 32 < 2 ^ 31 then ((v % 2 ^ 32 : Nat) : Int)
  else ((v % 2 ^ 32 : Nat) : Int) - 2 ^ 32

/-- Modelled from the spec: `get_uptime` (body in `rf_packet.c`): a pure read of
the member, returned through the declared result type `int`. -/
def get_uptime (f : rf_data_s) : Int := int_of_uint32 f.uptime

/-- Modelled from the spec: `get_time_since_accel` (body in `rf_packet.c`): a
pure read of the member, returned through the declared result type `int`. -/
def get_time_since_accel (f : rf_data_s) : Int := int_of_uint32 f.time_since_accel

/-! ## The declared `set_*_change` functions -/

/-- The functions the header declares under "functions that edit the update
field of the packet". -/
inductive change_fn
  | set_alt_change | set_lat_change | set_long_change | set_altgps_change
  | set_200gaccel_change | set_16gaccel_change | set_16gmag_change
  | set_pitch_change | set_roll_change | set_uptime_change
  | set_uptimeaccel_change | set_temp1_change | set_temp2_change
  deriving DecidableEq, Repr

/-- Modelled from the spec: the group each `set_*_change` function marks (the
bodies are in `rf_packet.c`); each function is paired with the group it is
named after. -/
def change_fn.group : change_fn → update_bit_pos
  | .set_alt_change => ALT
  | .set_lat_change => LAT
  | .set_long_change => LONG
  | .set_altgps_change => ALTGPS
  | .set_200gaccel_change => A200G
  | .set_16gaccel_change => A16G
  | .set_16gmag_change => MAG16G
  | .set_pitch_change => PITCH
  | .set_roll_change => ROLL
  | .set_uptime_change => UPTIME
  | .set_uptimeaccel_change => TIMEACCEL
  | .set_temp1_change => TEMP1
  | .set_temp2_change => TEMP2

/-- The declared `set_*_change` functions, in declaration order. -/
def change_fn.declared : List change_fn :=
  [.set_alt_change, .set_lat_change, .set_long_change, .set_altgps_change,
   .set_200gaccel_change, .set_16gaccel_change, .set_16gmag_change,
   .set_pitch_change, .set_roll_change, .set_uptime_change,
   .set_uptimeaccel_change, .set_temp1_change, .set_temp2_change]

/-- Modelled from the spec: a `set_*_change` function (body in `rf_packet.c`)
marks its group and rewrites no value. -/
def change_fn.run (c : change_fn) (f : rf_data_s) : rf_data_s :=
  mark_changed f c.group

/-- One call of the mutation interface: the declared `add_*` and `set_*`
functions with their arguments. -/
inductive Mutation
  | add_alt (v : Nat)
  | add_lat (v : Nat)
  | add_long (v : Nat)
  | add_alt_gps (v : Nat)
  | add_200g_accel (x y z : Nat)
  | add_16g_accel (x y z : Nat)
  | add_16g_mag (x y z : Nat)
  | add_pitch (v : Nat)
  | add_roll (v : Nat)
  | add_uptime (seconds : Nat)
  | add_time_since_accel (seconds : Nat)
  | add_temp1 (v : Nat)
  | add_temp2 (v : Nat)
  | set_charge (charge : Int) (active : Bool)
  | set_continuity (charge : Int) (has_continuity : Bool)
  | set_change (c : change_fn)
  deriving DecidableEq, Repr

/-- The effect of one call on a frame. -/
def Mutation.run : Mutation → rf_data_s → rf_data_s
  | .add_alt v, f => RfPacket.add_alt f v
  | .add_lat v, f => RfPacket.add_lat f v
  | .add_long v, f => RfPacket.add_long f v
  | .add_alt_gps v, f => RfPacket.add_alt_gps f v
  | .add_200g_accel x y z, f => RfPacket.add_200g_accel f x y z
  | .add_16g_accel x y z, f => RfPacket.add_16g_accel f x y z
  | .add_16g_mag x y z, f => RfPacket.add_16g_mag f x y z
  | .add_pitch v, f => RfPacket.add_pitch f v
  | .add_roll v, f => RfPacket.add_roll f v
  | .add_uptime s, f => RfPacket.add_uptime f s
  | .add_time_since_accel s, f => RfPacket.add_time_since_accel f s
  | .add_temp1 v, f => RfPacket.add_temp1 f v
  | .add_temp2 v, f => RfPacket.add_temp2 f v
  | .set_charge c b, f => RfPacket.set_charge f c b
  | .set_continuity c b, f => RfPacket.set_continuity f c b
  | .set_change c, f => c.run f

/-- The frame after a sequence of calls, first call first. -/
def run_all (ms : List Mutation) (f : rf_data_s) : rf_data_s :=
  ms.foldl (fun acc m => m.run acc) f

/-! ## The compaction codec -/

/-- Modelled from the spec: the four bytes a 32-bit value contributes to the
reduced form (written by `reduce_packet`, body in `rf_packet.c`), least
significant byte first: both targets named in the header are little-endian. -/
def bytes32 (v : Nat) : List Nat :=
  [v % 256, v / 256 % 256, v / 65536 % 256, v / 16777216 % 256]

/-- Modelled from the spec: the 32-bit value `decompress_packet` (body in
`rf_packet.c`) reads from four bytes, least significant byte first. -/
def word32 : List Nat → Nat
  | [a, b, c, d] => a + 256 * b + 65536 * c + 16777216 * d
  | _ => 0

/-- Modelled from the spec: the byte of the reduced form that carries the two
4-bit channel groups (written by `reduce_packet`, body in `rf_packet.c`):
`charges`, declared first, in the low half and `continuity` in the high half. -/
def channel_byte (f : rf_data_s) : Nat :=
  f.charges % 16 + 16 * (f.continuity % 16)

/-- Modelled from the spec: the number of value bytes a group has in the reduced
form (`reduce_packet`, body in `rf_packet.c`): 4 for a scalar, 12 for a
three-axis group, 1 for the byte the two channel groups share. -/
def group_width : update_bit_pos → Nat
  | A200G | A16G | MAG16G => 12
  | CHARGES | CONTINUITY => 1
  | _ => 4

/-- Modelled from the spec: the value bytes `reduce_packet` (body in
`rf_packet.c`) emits for a group: the bytes of its members in declaration
order; the two channel groups both refer to the one byte they share. -/
def group_bytes (f : rf_data_s) : update_bit_pos → List Nat
  | ALT => bytes32 f.alt
  | LAT => bytes32 f.lat
  | LONG => bytes32 f.lon
  | ALTGPS => bytes32 f.alt_gps
  | A200G => bytes32 f.x200g ++ bytes32 f.y200g ++ bytes32 f.z200g
  | A16G => bytes32 f.x16g ++ bytes32 f.y16g ++ bytes32 f.z16g
  | MAG16G => bytes32 f.x16mag ++ bytes32 f.y16mag ++ bytes32 f.z16mag
  | PITCH => bytes32 f.pitch
  | ROLL => bytes32 f.roll
  | UPTIME => bytes32 f.uptime
  | TIMEACCEL => bytes32 f.time_since_accel
  | TEMP1 => bytes32 f.temp1
  | TEMP2 => bytes32 f.temp2
  | CHARGES => [channel_byte f]
  | CONTINUITY => [channel_byte f]

/-- Modelled from the spec: how `decompress_packet` (body in `rf_packet.c`)
stores the value bytes of a group into the frame. -/
def put_group (f : rf_data_s) : update_bit_pos → List Nat → rf_data_s
  | ALT, bs => { f with alt := word32 bs }
  | LAT, bs => { f with lat := word32 bs }
  | LONG, bs => { f with lon := word32 bs }
  | ALTGPS, bs => { f with alt_gps := word32 bs }
  | A200G, bs => { f with x200g := word32 (bs.take 4), y200g := word32 ((bs.drop 4).take 4),
                          z200g := word32 (bs.drop 8) }
  | A16G, bs => { f with x16g := word32 (bs.take 4), y16g := word32 ((bs.drop 4).take 4),
                         z16g := word32 (bs.drop 8) }
  | MAG16G, bs => { f with x16mag := word32 (bs.take 4), y16mag := word32 ((bs.drop 4).take 4),
                           z16mag := word32 (bs.drop 8) }
  | PITCH, bs => { f with pitch := word32 bs }
  | ROLL, bs => { f with roll := word32 bs }
  | UPTIME, bs => { f with uptime := word32 bs }
  | TIMEACCEL, bs => { f with time_since_accel := word32 bs }
  | TEMP1, bs => { f with temp1 := word32 bs }
  | TEMP2, bs => { f with temp2 := word32 bs }
  | CHARGES, bs => { f with charges := bs.headD 0 % 16, continuity := bs.headD 0 / 16 % 16 }
  | CONTINUITY, bs => { f with charges := bs.headD 0 % 16, continuity := bs.headD 0 / 16 % 16 }

/-- The values of the members of a group in a frame (the members are those
that `rf_member.group` assigns to the group, in declaration order). -/
def group_value (f : rf_data_s) : update_bit_pos → List Nat
  | ALT => [f.alt]
  | LAT => [f.lat]
  | LONG => [f.lon]
  | ALTGPS => [f.alt_gps]
  | A200G => [f.x200g, f.y200g, f.z200g]
  | A16G => [f.x16g, f.y16g, f.z16g]
  | MAG16G => [f.x16mag, f.y16mag, f.z16mag]
  | PITCH => [f.pitch]
  | ROLL => [f.roll]
  | UPTIME => [f.uptime]
  | TIMEACCEL => [f.time_since_accel]
  | TEMP1 => [f.temp1]
  | TEMP2 => [f.temp2]
  | CHARGES => [f.charges]
  | CONTINUITY => [f.continuity]

/-- Whether the mask of a frame has the bit at the mask-table position of `g` set. -/
def bit_set (f : rf_data_s) (g : update_bit_pos) : Bool :=
  f.update_mask.testBit g.val

/-- Whether the mask of a frame has the mask bit of group `g` set, the bit being
the one the data-model table gives the group (`spec_mask_bit`). -/
def group_marked (f : rf_data_s) (g : update_bit_pos) : Bool :=
  f.update_mask.testBit (spec_mask_bit g)

/-- The members `put_group` writes for a mask-table entry: the members of the
group, and both channel members for either channel entry, since the two share
one byte. -/
def stored_members (f : rf_data_s) : update_bit_pos → List Nat
  | CHARGES | CONTINUITY => [f.charges, f.continuity]
  | ALT => [f.alt]
  | LAT => [f.lat]
  | LONG => [f.lon]
  | ALTGPS => [f.alt_gps]
  | A200G => [f.x200g, f.y200g, f.z200g]
  | A16G => [f.x16g, f.y16g, f.z16g]
  | MAG16G => [f.x16mag, f.y16mag, f.z16mag]
  | PITCH => [f.pitch]
  | ROLL => [f.roll]
  | UPTIME => [f.uptime]
  | TIMEACCEL => [f.time_since_accel]
  | TEMP1 => [f.temp1]
  | TEMP2 => [f.temp2]

/-- Modelled from the spec: the value part of the reduced form (`reduce_packet`,
body in `rf_packet.c`): walking the mask table in order, the value bytes of
each group whose bit is set and nothing for the others. -/
def reduce_values (f : rf_data_s) : List update_bit_pos → List Nat
  | [] => []
  | g :: gs => (if bit_set f g then group_bytes f g else []) ++ reduce_values f gs

/-- Modelled from the spec: `reduce_packet` (body in `rf_packet.c`): the reduced
form is the tag, the mask in full (two bytes) and the value bytes of the groups
whose bit is set; the result is the byte count together with the buffer. -/
def reduce_packet (f : rf_data_s) : Nat × List Nat :=
  let wire := f.start_byte :: f.update_mask % 256 :: f.update_mask / 256 % 256 ::
    reduce_values f update_bit_pos.enumerators
  (wire.length, wire)

/-- Modelled from the spec: the value walk of `decompress_packet` (body in
`rf_packet.c`): walking the mask table in order, each group whose bit is set
consumes its value bytes; a buffer that ends early or has bytes left over is a
failure. -/
def decompress_values : List update_bit_pos → rf_data_s → List Nat → Option rf_data_s
  | [], f, wire => if wire.isEmpty then some f else none
  | g :: gs, f, wire =>
      if bit_set f g then
        if wire.length < group_width g then none
        else decompress_values gs (put_group f g (wire.take (group_width g)))
               (wire.drop (group_width g))
      else decompress_values gs f wire

/-- Modelled from the spec: `decompress_packet` (body in `rf_packet.c`): read the
tag and the mask, then the values of the set groups.  The groups whose bit is
unset keep the value they have in `base`, the frame being filled (a freshly
created one for zero fill). -/
def decompress_packet (base : rf_data_s) : List Nat → Option rf_data_s
  | tag :: lo :: hi :: rest =>
      decompress_values update_bit_pos.enumerators
        { base with start_byte := tag,
                    update_mask := (lo + 256 * hi) % 2 ^ update_mask_bits } rest
  | _ => none

/-! ## Mask table: positions -/

/-- C1: the mask table gives the groups the positions ALT=0, LAT=1, LONG=2,
ALTGPS=3, A200G=4, A16G=5, MAG16G=6, PITCH=7, ROLL=8, UPTIME=9, TIMEACCEL=10,
TEMP1=11, TEMP2=12, CHARGES=13; the three axes of each xyz triple belong to one
entry that occurs once in the table; distinct groups have distinct positions. -/
theorem update_bit_pos_positions :
    ALT.val = 0 ∧ LAT.val = 1 ∧ LONG.val = 2 ∧ ALTGPS.val = 3 ∧ A200G.val = 4 ∧
    A16G.val = 5 ∧ MAG16G.val = 6 ∧ PITCH.val = 7 ∧ ROLL.val = 8 ∧ UPTIME.val = 9 ∧
    TIMEACCEL.val = 10 ∧ TEMP1.val = 11 ∧ TEMP2.val = 12 ∧ CHARGES.val = 13 ∧
    ([rf_member.x200g, .y200g, .z200g].map rf_member.group = List.replicate 3 (some A200G) ∧
      update_bit_pos.enumerators.count A200G = 1) ∧
    ([rf_member.x16g, .y16g, .z16g].map rf_member.group = List.replicate 3 (some A16G) ∧
      update_bit_pos.enumerators.count A16G = 1) ∧
    ([rf_member.x16mag, .y16mag, .z16mag].map rf_member.group = List.replicate 3 (some MAG16G) ∧
      update_bit_pos.enumerators.count MAG16G = 1) ∧
    Function.Injective update_bit_pos.val := by
  repeat' apply And.intro
  all_goals first
    | decide
    | (intro a b; cases a <;> cases b <;> decide)

/-- C2: the group CONTINUITY has position 14, which is not below the width 14 of
`update_mask`; its single bit truncated to the field is zero, and marking it on
a freshly created frame leaves the mask cleared.  Every other group has a
position below the width and a non-zero bit. -/
theorem continuity_has_no_mask_bit :
    CONTINUITY.val = 14 ∧ update_mask_bits = 14 ∧
    ¬ (CONTINUITY.val < update_mask_bits) ∧
    mask_bit CONTINUITY = 0 ∧
    (mark_changed (create_packet ⟨1234, 4321, 1234⟩) CONTINUITY).update_mask = 0 ∧
    (∀ g : update_bit_pos, (g.val < update_mask_bits ∧ mask_bit g ≠ 0) ↔ g ≠ CONTINUITY) := by
  repeat' apply And.intro
  all_goals first
    | decide
    | (intro g; cases g <;> decide)

/-- C3, as stated, fails: CHARGES and CONTINUITY do not both have position 13. -/
theorem charges_continuity_not_both_13 :
    ¬ (CHARGES.val = 13 ∧ CONTINUITY.val = 13) := by
  decide

/-- C3, amended: CHARGES has position 13 and CONTINUITY has its own position 14,
so the two groups do not share a position of the mask table. -/
theorem charges_continuity_positions :
    CHARGES.val = 13 ∧ CONTINUITY.val = 14 ∧ CHARGES.val ≠ CONTINUITY.val := by
  decide

/-! ## Endianness tag -/

/-- C6: with distinct big- and little-endian order constants, `START_BYTE` is
0x3E exactly on a big-endian host, 0x3C exactly on a little-endian host and 0x3F
exactly on any other host; the three values are pairwise distinct. -/
theorem START_BYTE_classes (h : Host) (hd : h.order_big_endian ≠ h.order_little_endian) :
    (START_BYTE h = 0x3E ↔ h.byte_order = h.order_big_endian) ∧
    (START_BYTE h = 0x3C ↔ h.byte_order = h.order_little_endian) ∧
    (START_BYTE h = 0x3F ↔
      (h.byte_order ≠ h.order_big_endian ∧ h.byte_order ≠ h.order_little_endian)) ∧
    (0x3E : Nat) ≠ 0x3C ∧ (0x3E : Nat) ≠ 0x3F ∧ (0x3C : Nat) ≠ 0x3F := by
  unfold START_BYTE
  by_cases h1 : h.byte_order = h.order_big_endian
  · have h2 : h.byte_order ≠ h.order_little_endian := fun e => hd (h1.symm.trans e)
    simp [h1, h2, hd]
  · by_cases h2 : h.byte_order = h.order_little_endian
    · simp [h1, h2, Ne.symm hd]
    · simp [h1, h2]

/-- C6 at a little-endian host with the usual constants 4321 and 1234. -/
theorem START_BYTE_classes_witness :
    ((4321 : Nat) ≠ 1234) ∧ START_BYTE ⟨1234, 4321, 1234⟩ = 0x3C :=
  ⟨by decide, ((START_BYTE_classes ⟨1234, 4321, 1234⟩ (by decide)).2.1).2 rfl⟩

/-! ## Uptime getters -/

/-- C7: for the seconds value 2^31 the getters do not return the stored number:
`get_uptime` after `add_uptime` and `get_time_since_accel` after
`add_time_since_accel` both return -2147483648, while the member holds
2147483648. -/
theorem uptime_getters_wrap (f : rf_data_s) :
    get_uptime (add_uptime f 2147483648) = -2147483648 ∧
    (add_uptime f 2147483648).uptime = 2147483648 ∧
    get_time_since_accel (add_time_since_accel f 2147483648) = -2147483648 ∧
    (add_time_since_accel f 2147483648).time_since_accel = 2147483648 := by
  refine ⟨?_, ?_, ?_, ?_⟩
  · show int_of_uint32 (2147483648 % 2 ^ 32) = -2147483648
    decide
  · show 2147483648 % 2 ^ 32 = 2147483648
    decide
  · show int_of_uint32 (2147483648 % 2 ^ 32) = -2147483648
    decide
  · show 2147483648 % 2 ^ 32 = 2147483648
    decide

/-! ## Byte layout of the record -/

/-- C8: the members do not all lie at the byte ranges annotated beside them.
`y16mag` lies at its annotated bytes 47-50, so `z16mag`, annotated 50-53, lies
at 51-54; every later member lies one byte after its annotation, and the two
channel bit-fields, annotated 78-81, lie in the one byte 79 of a record of 80
bytes. -/
theorem annotated_ranges_not_exact :
    byte_range .y16mag = some (47, 50) ∧ annotated_range .y16mag = (47, 50) ∧
    byte_range .z16mag = some (51, 54) ∧ annotated_range .z16mag = (50, 53) ∧
    byte_range .charges = some (79, 79) ∧ annotated_range .charges = (78, 81) ∧
    byte_range .continuity = some (79, 79) ∧ annotated_range .continuity = (78, 81) ∧
    sizeof_rf_data_s = 80 ∧
    (rf_data_s_members.map Prod.fst).filter
        (fun m => decide (byte_range m ≠ some (annotated_range m))) =
      [ .z16mag, .pitch, .roll, .uptime, .time_since_accel, .temp1, .temp2,
        .charges, .continuity ] ∧
    ¬ (∀ m : rf_member, byte_range m = some (annotated_range m)) := by
  repeat' apply And.intro
  all_goals first
    | decide
    | (intro h; exact absurd (h .z16mag) (by decide))

/-- The byte range of every member under single-byte packing, in declaration
order. -/
theorem packed_byte_ranges :
    rf_data_s_members.map (fun p => (p.1, byte_range p.1)) =
      [ (.start_byte, some (0, 0)), (.update_mask, some (1, 2)),
        (.alt, some (3, 6)), (.lat, some (7, 10)), (.lon, some (11, 14)),
        (.alt_gps, some (15, 18)),
        (.x200g, some (19, 22)), (.y200g, some (23, 26)), (.z200g, some (27, 30)),
        (.x16g, some (31, 34)), (.y16g, some (35, 38)), (.z16g, some (39, 42)),
        (.x16mag, some (43, 46)), (.y16mag, some (47, 50)), (.z16mag, some (51, 54)),
        (.pitch, some (55, 58)), (.roll, some (59, 62)),
        (.uptime, some (63, 66)), (.time_since_accel, some (67, 70)),
        (.temp1, some (71, 74)), (.temp2, some (75, 78)),
        (.charges, some (79, 79)), (.continuity, some (79, 79)) ] := by
  decide

/-- C10: the record has the one size 80 bytes; the first member starts at bit 0
and the last ends at bit 640; no member starts before the previous one ends and
none leaves a byte unused in between; there are nineteen 4-byte members, the
mask lies in the 2 bytes 1-2 and the two channel groups in the one byte 79; the
array `serialized` has the length of the record, and so has the union. -/
theorem frame_size_80 :
    sizeof_rf_data_s = 80 ∧
    serialized_length = sizeof_rf_data_s ∧
    sizeof_rf_data_u = 80 ∧
    (rf_data_s_layout.head?.map fun p => p.2.1) = some 0 ∧
    (rf_data_s_layout.getLast?.map fun p => p.2.1 + p.2.2) = some (8 * 80) ∧
    (consecutive_ranges.all fun q =>
      decide (q.1.2.1 + q.1.2.2 ≤ q.2.2.1 ∧
        q.2.2.1 / 8 ≤ (q.1.2.1 + q.1.2.2 - 1) / 8 + 1)) = true ∧
    consecutive_ranges.length + 1 = rf_data_s_members.length ∧
    rf_data_s_members.count (.start_byte, .bytes 1) = 1 ∧
    (rf_data_s_members.filter fun p => decide (p.2 = .bytes 4)).length = 19 ∧
    byte_range .update_mask = some (1, 2) ∧
    byte_range .charges = some (79, 79) ∧ byte_range .continuity = some (79, 79) ∧
    1 + 2 + 19 * 4 + 1 = sizeof_rf_data_s := by
  repeat' apply And.intro
  all_goals decide

/-! ## Declared mark-changed operations -/

/-- C9, as stated, fails: not every group of the mask table has a declared
`set_*_change` function; CHARGES has none. -/
theorem not_every_group_has_change_fn :
    ¬ (∀ g : update_bit_pos, ∃ c ∈ change_fn.declared, c.group = g) := by
  intro h
  obtain ⟨c, _, hc⟩ := h CHARGES
  cases c <;> simp [change_fn.group] at hc

/-- C9, amended: a group has a declared `set_*_change` function exactly when it
is neither CHARGES nor CONTINUITY (positions 0 to 12); the thirteen declared
functions mark thirteen different groups. -/
theorem change_fn_groups :
    (∀ g : update_bit_pos, (∃ c ∈ change_fn.declared, c.group = g) ↔
      (g ≠ CHARGES ∧ g ≠ CONTINUITY)) ∧
    (∀ g : update_bit_pos, (g ≠ CHARGES ∧ g ≠ CONTINUITY) ↔ g.val < 13) ∧
    change_fn.declared.length = 13 ∧
    Function.Injective change_fn.group := by
  refine ⟨?_, ?_, rfl, ?_⟩
  · intro g
    cases g <;> decide
  · intro g
    cases g <;> decide
  · intro a b
    cases a <;> cases b <;> decide

/-! ## Frames built through the mutation interface are well formed -/

theorem wf_create_packet (h : Host) : (create_packet h).wf := by
  simp [rf_data_s.wf, create_packet]

theorem wf_mark_changed (f : rf_data_s) (g : update_bit_pos) (hf : f.wf) :
    (mark_changed f g).wf := by
  unfold rf_data_s.wf at *
  simp only [mark_changed, update_mask_bits, channel_bits] at *
  omega

theorem write_channel_lt (bits channel : Nat) (value : Bool) :
    write_channel bits channel value < 2 ^ channel_bits :=
  Nat.mod_lt _ (by decide)

theorem wf_mutation (m : Mutation) (f : rf_data_s) (hf : f.wf) : (m.run f).wf := by
  cases m with
  | set_charge c b =>
      simp only [Mutation.run, set_charge]
      split
      · apply wf_mark_changed
        have hw := write_channel_lt f.charges c.toNat b
        unfold rf_data_s.wf at *
        simp only [update_mask_bits, channel_bits] at *
        omega
      · exact hf
  | set_continuity c b =>
      simp only [Mutation.run, set_continuity]
      split
      · have hw := write_channel_lt f.continuity c.toNat b
        unfold rf_data_s.wf at *
        simp only [update_mask_bits, channel_bits] at *
        omega
      · exact hf
  | set_change c => exact wf_mark_changed f c.group hf
  | _ =>
      simp only [Mutation.run, add_alt, add_lat, add_long, add_alt_gps, add_200g_accel,
        add_16g_accel, add_16g_mag, add_pitch, add_roll, add_uptime, add_time_since_accel,
        add_temp1, add_temp2]
      apply wf_mark_changed
      unfold rf_data_s.wf at *
      simp only [update_mask_bits, channel_bits] at *
      omega

theorem wf_run_all (ms : List Mutation) :
    ∀ f : rf_data_s, f.wf → (run_all ms f).wf := by
  induction ms with
  | nil => intro f hf; exact hf
  | cons m ms ih =>
      intro f hf
      exact ih (m.run f) (wf_mutation m f hf)

/-! ## Codec lemmas -/

theorem group_bytes_length (f : rf_data_s) (g : update_bit_pos) :
    (group_bytes f g).length = group_width g := by
  cases g <;> rfl

theorem put_group_update_mask (b : rf_data_s) (g : update_bit_pos) (bs : List Nat) :
    (put_group b g bs).update_mask = b.update_mask := by
  cases g <;> rfl

theorem put_group_start_byte (b : rf_data_s) (g : update_bit_pos) (bs : List Nat) :
    (put_group b g bs).start_byte = b.start_byte := by
  cases g <;> rfl

theorem word32_bytes32 (v : Nat) (hv : v < 2 ^ 32) : word32 (bytes32 v) = v := by
  simp only [bytes32, word32]
  omega

/-- Storing a group of `f` into a frame that already agrees with `f` on the
members of an entry keeps that agreement. -/
theorem put_group_keeps (f b : rf_data_s) (hf : f.wf) (g g' : update_bit_pos)
    (h : stored_members b g' = stored_members f g') :
    stored_members (put_group b g (group_bytes f g)) g' = stored_members f g' := by
  unfold rf_data_s.wf at hf
  simp only [update_mask_bits, channel_bits] at hf
  cases g <;> cases g' <;>
    simp [put_group, group_bytes, stored_members, bytes32, word32, channel_byte] at h ⊢ <;>
    omega

/-- Storing a group of `f` into any frame makes the frame agree with `f` on the
members of that entry. -/
theorem put_group_self (f b : rf_data_s) (hf : f.wf) (g : update_bit_pos) :
    stored_members (put_group b g (group_bytes f g)) g = stored_members f g := by
  unfold rf_data_s.wf at hf
  simp only [update_mask_bits, channel_bits] at hf
  cases g <;>
    simp [put_group, group_bytes, stored_members, bytes32, word32, channel_byte] <;>
    omega

theorem reduce_values_length (f : rf_data_s) (gs : List update_bit_pos) :
    (reduce_values f gs).length =
      (gs.map fun g => if bit_set f g then group_width g else 0).sum := by
  induction gs with
  | nil => rfl
  | cons g gs ih =>
      simp only [reduce_values, List.length_append, List.map_cons, List.sum_cons, ih]
      split <;> simp [group_bytes_length]

theorem decompress_values_reduce_values (f : rf_data_s) (hf : f.wf)
    (gs : List update_bit_pos) :
    ∀ b : rf_data_s, b.update_mask = f.update_mask →
      ∃ r, decompress_values gs b (reduce_values f gs) = some r ∧
        r.update_mask = f.update_mask ∧ r.start_byte = b.start_byte ∧
        (∀ g, stored_members b g = stored_members f g →
          stored_members r g = stored_members f g) ∧
        (∀ g ∈ gs, bit_set f g = true → stored_members r g = stored_members f g) := by
  induction gs with
  | nil =>
      intro b hb
      exact ⟨b, by simp [decompress_values, reduce_values], hb, rfl, fun _ h => h,
        fun g hg => absurd hg (List.not_mem_nil g)⟩
  | cons g gs ih =>
      intro b hb
      have hbit : bit_set b g = bit_set f g := by simp [bit_set, hb]
      by_cases hg : bit_set f g = true
      · have hm : (put_group b g (group_bytes f g)).update_mask = f.update_mask := by
          rw [put_group_update_mask, hb]
        obtain ⟨r, hr, hrm, hrs, hkeep, hset⟩ := ih (put_group b g (group_bytes f g)) hm
        refine ⟨r, ?_, hrm, ?_, ?_, ?_⟩
        · have hlen := group_bytes_length f g
          simp only [decompress_values, reduce_values, hbit, hg, if_true,
            List.length_append, List.take_left' hlen, List.drop_left' hlen]
          rw [if_neg (by omega)]
          exact hr
        · rw [hrs, put_group_start_byte]
        · intro g' h'
          exact hkeep g' (put_group_keeps f b hf g g' h')
        · intro g' hg' hs
          rcases List.mem_cons.mp hg' with rfl | hin
          · exact hkeep g' (put_group_self f b hf g')
          · exact hset g' hin hs
      · obtain ⟨r, hr, hrm, hrs, hkeep, hset⟩ := ih b hb
        refine ⟨r, ?_, hrm, hrs, hkeep, ?_⟩
        · simp only [decompress_values, reduce_values, hbit, hg, List.nil_append]
          simpa using hr
        · intro g' hg' hs
          rcases List.mem_cons.mp hg' with rfl | hin
          · exact absurd hs hg
          · exact hset g' hin hs

/-! ## The compaction codec: size and round trip -/

/-- C5: for every frame `reduce_packet` returns the length of the reduced form,
which is 1 (tag) plus 2 (mask) plus the widths of the groups whose mask bit is
set, nothing for the others; a freshly created frame reduces to the 3 bytes
tag, 0, 0. -/
theorem reduce_packet_size (f : rf_data_s) (h : Host) :
    (reduce_packet f).1 =
      1 + 2 + (update_bit_pos.enumerators.map fun g =>
        if bit_set f g then group_width g else 0).sum ∧
    (reduce_packet f).2.length = (reduce_packet f).1 ∧
    reduce_packet (create_packet h) = (3, [START_BYTE h, 0, 0]) := by
  refine ⟨?_, rfl, ?_⟩
  · simp only [reduce_packet, List.length_cons, reduce_values_length]
    omega
  · simp [reduce_packet, create_packet, update_bit_pos.enumerators, reduce_values, bit_set]

/-- The mask bit the data-model table gives a group is the bit at its
mask-table position, except for the continuity group, whose bit is the one at
the position of the charge group. -/
theorem group_marked_eq (f : rf_data_s) (g : update_bit_pos) :
    group_marked f g = bit_set f (if g = CONTINUITY then CHARGES else g) := by
  cases g <;> rfl

/-- A valid call of `set_continuity` sets the mask bit of the continuity group. -/
theorem set_continuity_marks (f : rf_data_s) (charge : Int) (b : Bool)
    (hc : 0 ≤ charge ∧ charge < 4) :
    group_marked (set_continuity f charge b) CONTINUITY = true := by
  rw [set_continuity, if_pos hc]
  show ((f.update_mask ||| (1 <<< 13)) % 2 ^ 14).testBit 13 = true
  rw [Nat.testBit_mod_two_pow, Nat.testBit_or, Nat.testBit_shiftLeft]
  simp

/-- A frame written only by `set_continuity 2 true` keeps its continuity value 4
through the round trip. -/
theorem roundtrip_set_continuity_example :
    (run_all [.set_continuity 2 true] (create_packet ⟨1234, 4321, 1234⟩)).continuity = 4 ∧
    reduce_packet (run_all [.set_continuity 2 true] (create_packet ⟨1234, 4321, 1234⟩))
      = (4, [60, 0, 32, 64]) ∧
    decompress_packet (create_packet ⟨1234, 4321, 1234⟩) [60, 0, 32, 64]
      = some (run_all [.set_continuity 2 true] (create_packet ⟨1234, 4321, 1234⟩)) := by
  repeat' apply And.intro
  all_goals decide

/-- C4: for a frame built from a freshly created packet by any sequence of
mutation calls, `decompress_packet` of the reduced form succeeds and yields a
frame with the same mask whose value, for every group whose mask bit is set
(bit 13 for the continuity group as for the charge group), is the value of the
original frame. -/
theorem decompress_reduce_roundtrip (h : Host) (ms : List Mutation) (base : rf_data_s) :
    ∃ r, decompress_packet base (reduce_packet (run_all ms (create_packet h))).2 = some r ∧
      r.update_mask = (run_all ms (create_packet h)).update_mask ∧
      ∀ g, group_marked (run_all ms (create_packet h)) g = true →
        group_value r g = group_value (run_all ms (create_packet h)) g := by
  have hf := wf_run_all ms (create_packet h) (wf_create_packet h)
  generalize run_all ms (create_packet h) = f at hf ⊢
  have hmask : (f.update_mask % 256 + 256 * (f.update_mask / 256 % 256)) % 2 ^ update_mask_bits
      = f.update_mask := by
    have := hf.1
    simp only [update_mask_bits] at this ⊢
    omega
  obtain ⟨r, hr, hrm, _, _, hset⟩ :=
    decompress_values_reduce_values f hf update_bit_pos.enumerators
      { base with start_byte := f.start_byte,
                  update_mask := (f.update_mask % 256 + 256 * (f.update_mask / 256 % 256))
                    % 2 ^ update_mask_bits } hmask
  refine ⟨r, ?_, hrm, ?_⟩
  · simpa [reduce_packet, decompress_packet] using hr
  · intro g hg
    rw [group_marked_eq] at hg
    have hs := hset (if g = CONTINUITY then CHARGES else g) (by cases g <;> decide) hg
    cases g <;> simp [stored_members, group_value] at hs ⊢ <;> simp [hs]

end RfPacket
